import Mathlib

/-!
Shallow embedding of the performance-path analytics of `mpt_lib`
(`src/mpt_lib/src/absolute_statistics.rs`), together with proofs that settle
the frozen claims about its specification.

Modelling conventions:
* `f64` values that the code has already checked to be finite are carried as `ℚ`
  (the code only compares and adds/subtracts/multiplies them, so the exact
  ordered-field structure is what matters).  A possibly non-finite `f64` is an
  `Option ℚ`, with `none` standing for any NaN/Inf value; `f64::NAN` outputs are
  `none` as well.
* The transcendental helpers `x ↦ ln(1 + x/100)` and `x ↦ (exp x - 1) * 100`
  and the calendar collaborator `to_period_begin_int` (spec §6 treats the
  calendar as an external collaborator) are abstracted as function parameters
  `ln1p`, `expPct`, `pBegin` of the public wrappers.
* A Rust panic (out-of-bounds slice index, `usize` underflow) is `.error .crash`;
  the recursive search is given explicit fuel, and running out of fuel at every
  fuel amount (`.error .noFuel` for all `fuel`) models non-termination.
* Out-parameters written by the Rust functions are threaded explicitly: each
  wrapper takes the caller-visible initial value and returns the final value.
-/

namespace MptLib

/-- Error enumeration from `src/mpt_lib/src/enums.rs`. -/
inductive Errors where
  | ClErrorCodeNoError
  | ClErrorCodeInvalidPara
  | ClErrorCodeInvalidOutput
  | ClErrorCodeInvalidValue
  | ClErrorCodeInputLenTooShort
  | ClErrorCodeInvalidDate
  | ClErrorCodeCcFaild
  | ClErrorCodeDidNotSetHoliday
  | ClErrorCodeUnsortedByDate
  | ClErrorCodeJni
  | ClErrorCodeUnknown
  deriving DecidableEq, Repr

/-- Abnormal outcomes of running the embedded code: `crash` is a Rust panic
(out-of-bounds index / usize underflow), `noFuel` is exhaustion of the
recursion fuel (holding at every fuel amount, it models non-termination). -/
inductive RunFail where
  | crash
  | noFuel
  deriving DecidableEq, Repr

/-- The `DataGroup` struct from `src/mpt_lib/src/common.rs`; field `end` is
renamed `endI` because `end` is a Lean keyword. -/
structure DataGroup where
  start : Nat
  endI : Nat
  data : ℚ
  deriving DecidableEq, Repr

/-- `DataGroup::new()` from common.rs. -/
def DataGroup.new : DataGroup := ⟨0, 0, 0⟩

/-- Loop `for i in start..end+1 { if values[i] != 0.0 { ... break } }`:
first index in `[i, i+steps)` holding a nonzero value. -/
def firstNonzero (v : List ℚ) (i steps : Nat) : Option Nat :=
  match steps with
  | 0 => none
  | steps' + 1 => if v.getD i 0 ≠ 0 then some i else firstNonzero v (i + 1) steps'

/-- The leading-zero skip shared by `get_max_draw_down` and `get_max_gain`
(absolute_statistics.rs lines 2148-2154 and 2380-2386): `start` becomes
`i - 1` for the first nonzero index `i` of `[start, end]` (`i` itself if
`i = 0`), and stays `start` when the whole range is zero. -/
def adjustStart (v : List ℚ) (s e : Nat) : Nat :=
  match firstNonzero v s (e + 1 - s) with
  | some i => if i > 0 then i - 1 else i
  | none => s

/-- The max/min scan of both searches (lines 2156-2165 / 2388-2397):
`if values[i] > values[max] { max = i }; if values[i] < values[min] { min = i }`
over `[i, i+steps)`, returning `(max_index, min_index)`. -/
def scanExtrema (v : List ℚ) (i steps ma mi : Nat) : Nat × Nat :=
  match steps with
  | 0 => (ma, mi)
  | steps' + 1 =>
      scanExtrema v (i + 1) steps'
        (if v.getD i 0 > v.getD ma 0 then i else ma)
        (if v.getD i 0 < v.getD mi 0 then i else mi)

/-- Arg-max scan `if values[i] > values[a] { a = i }` over `[i, i+steps)`
(used for `maxindex_before_min` and `maxindex_after_min`). -/
def scanMaxIdx (v : List ℚ) (i steps a : Nat) : Nat :=
  match steps with
  | 0 => a
  | steps' + 1 => scanMaxIdx v (i + 1) steps' (if v.getD i 0 > v.getD a 0 then i else a)

/-- Arg-min scan `if values[i] < values[a] { a = i }` over `[i, i+steps)`
(used for `minindex_after_max` and `minindex_before_max`). -/
def scanMinIdx (v : List ℚ) (i steps a : Nat) : Nat :=
  match steps with
  | 0 => a
  | steps' + 1 => scanMinIdx v (i + 1) steps' (if v.getD i 0 < v.getD a 0 then i else a)

/-- `first_inflexion_after_min` loop (lines 2197-2204): advance while
`values[i+1] > values[i]`, recording `i+1`, else break. -/
def incRunUp (v : List ℚ) (i steps a : Nat) : Nat :=
  match steps with
  | 0 => a
  | steps' + 1 =>
      if v.getD (i + 1) 0 > v.getD i 0 then incRunUp v (i + 1) steps' (i + 1) else a

/-- `first_inflexion_after_max` loop of `get_max_gain` (lines 2429-2436):
advance while `values[i+1] < values[i]`. -/
def incRunDown (v : List ℚ) (i steps a : Nat) : Nat :=
  match steps with
  | 0 => a
  | steps' + 1 =>
      if v.getD (i + 1) 0 < v.getD i 0 then incRunDown v (i + 1) steps' (i + 1) else a

/-- `first_inflexion_before_max` loop (lines 2206-2213): descending `i`,
recording `i-1` while `values[i-1] < values[i]`.  When the iteration reaches
`i = 0` the Rust expression `values[i - 1]` underflows its `usize` index and
panics, which is modelled by `.error .crash`. -/
def backRunUp (v : List ℚ) (i steps a : Nat) : Except RunFail Nat :=
  match steps with
  | 0 => .ok a
  | steps' + 1 =>
      if i = 0 then .error .crash
      else if v.getD (i - 1) 0 < v.getD i 0 then backRunUp v (i - 1) steps' (i - 1)
      else .ok a

/-- `first_inflexion_before_min` loop of `get_max_gain` (lines 2438-2445):
descending `i`, recording `i-1` while `values[i-1] > values[i]`; same
underflow panic at `i = 0`. -/
def backRunDown (v : List ℚ) (i steps a : Nat) : Except RunFail Nat :=
  match steps with
  | 0 => .ok a
  | steps' + 1 =>
      if i = 0 then .error .crash
      else if v.getD (i - 1) 0 > v.getD i 0 then backRunDown v (i - 1) steps' (i - 1)
      else .ok a

/-- Body of one invocation of `get_max_draw_down` (lines 2144-2244), with the
recursive occurrence abstracted as `rec`.  `dg` is the incoming value of the
`&mut DataGroup` out-parameter (returned unchanged on the early
`InvalidPara` return, matching the Rust code which does not touch `dg`
there). -/
def get_max_draw_down_body (v : List ℚ)
    (rec : Nat → Nat → DataGroup → Except RunFail (Errors × DataGroup))
    (s e : Nat) (dg : DataGroup) : Except RunFail (Errors × DataGroup) :=
  if v.length = 0 ∨ e ≥ v.length then .ok (.ClErrorCodeInvalidPara, dg)
  else
    let start := adjustStart v s e
    let p := scanExtrema v start (e + 1 - start) start start
    let totalMaxIndex := p.1
    let totalMinIndex := p.2
    if totalMaxIndex < totalMinIndex then
      .ok (.ClErrorCodeInvalidPara,
        ⟨totalMaxIndex, totalMinIndex, v.getD totalMaxIndex 0 - v.getD totalMinIndex 0⟩)
    else if totalMaxIndex = totalMinIndex then
      .ok (.ClErrorCodeInvalidPara, ⟨0, 0, 0⟩)
    else
      let maxindexBeforeMin := scanMaxIdx v start (totalMinIndex - start) start
      let downValueBeforMin := v.getD maxindexBeforeMin 0 - v.getD totalMinIndex 0
      let minindexAfterMax := scanMinIdx v totalMaxIndex (e + 1 - totalMaxIndex) totalMaxIndex
      let downValueAfterMax := v.getD totalMaxIndex 0 - v.getD minindexAfterMax 0
      let firstInflexionAfterMin :=
        incRunUp v totalMinIndex (totalMaxIndex - totalMinIndex) totalMinIndex
      match backRunUp v (totalMaxIndex - 1) (totalMaxIndex - totalMinIndex) totalMaxIndex with
      | .error r => .error r
      | .ok firstInflexionBeforeMax =>
        let maxDownExtern : DataGroup :=
          if downValueBeforMin < downValueAfterMax then
            ⟨totalMaxIndex, minindexAfterMax, downValueAfterMax⟩
          else
            ⟨maxindexBeforeMin, totalMinIndex, downValueBeforMin⟩
        if firstInflexionAfterMin > firstInflexionBeforeMax then
          .ok (.ClErrorCodeNoError, maxDownExtern)
        else
          match rec firstInflexionAfterMin firstInflexionBeforeMax DataGroup.new with
          | .error r => .error r
          | .ok (_, maxDownBetween) =>
            .ok (.ClErrorCodeNoError,
              if maxDownBetween.data > maxDownExtern.data then maxDownBetween else maxDownExtern)

/-- Fuelled `get_max_draw_down`.  The Rust function is recursive with no
termination guarantee, so the embedding consumes one unit of fuel per
invocation; a result of `.error .noFuel` at every fuel amount means the Rust
function does not terminate on that input. -/
def get_max_draw_down (v : List ℚ) : Nat → Nat → Nat → DataGroup → Except RunFail (Errors × DataGroup)
  | 0, _, _, _ => .error .noFuel
  | fuel + 1, s, e, dg => get_max_draw_down_body v (get_max_draw_down v fuel) s e dg

/-- Body of one invocation of `get_max_gain` (lines 2376-2476), the exact
mirror of `get_max_draw_down_body`. -/
def get_max_gain_body (v : List ℚ)
    (rec : Nat → Nat → DataGroup → Except RunFail (Errors × DataGroup))
    (s e : Nat) (dg : DataGroup) : Except RunFail (Errors × DataGroup) :=
  if v.length = 0 ∨ e ≥ v.length then .ok (.ClErrorCodeInvalidPara, dg)
  else
    let start := adjustStart v s e
    let p := scanExtrema v start (e + 1 - start) start start
    let totalMaxIndex := p.1
    let totalMinIndex := p.2
    if totalMaxIndex > totalMinIndex then
      .ok (.ClErrorCodeInvalidPara,
        ⟨totalMinIndex, totalMaxIndex, v.getD totalMaxIndex 0 - v.getD totalMinIndex 0⟩)
    else if totalMaxIndex = totalMinIndex then
      .ok (.ClErrorCodeInvalidPara, ⟨0, 0, 0⟩)
    else
      let minindexBeforeMax := scanMinIdx v start (totalMaxIndex - start) start
      let gainValueBeforMax := v.getD totalMaxIndex 0 - v.getD minindexBeforeMax 0
      let maxindexAfterMin := scanMaxIdx v totalMinIndex (e + 1 - totalMinIndex) totalMinIndex
      let gainValueAfterMin := v.getD maxindexAfterMin 0 - v.getD totalMinIndex 0
      let firstInflexionAfterMax :=
        incRunDown v totalMaxIndex (totalMinIndex - totalMaxIndex) totalMaxIndex
      match backRunDown v (totalMinIndex - 1) (totalMinIndex - totalMaxIndex) totalMinIndex with
      | .error r => .error r
      | .ok firstInflexionBeforeMin =>
        let maxGainExtern : DataGroup :=
          if gainValueBeforMax < gainValueAfterMin then
            ⟨totalMinIndex, maxindexAfterMin, gainValueAfterMin⟩
          else
            ⟨minindexBeforeMax, totalMaxIndex, gainValueBeforMax⟩
        if firstInflexionAfterMax > firstInflexionBeforeMin then
          .ok (.ClErrorCodeNoError, maxGainExtern)
        else
          match rec firstInflexionAfterMax firstInflexionBeforeMin DataGroup.new with
          | .error r => .error r
          | .ok (_, maxGainBetween) =>
            .ok (.ClErrorCodeNoError,
              if maxGainBetween.data > maxGainExtern.data then maxGainBetween else maxGainExtern)

/-- Fuelled `get_max_gain`. -/
def get_max_gain (v : List ℚ) : Nat → Nat → Nat → DataGroup → Except RunFail (Errors × DataGroup)
  | 0, _, _, _ => .error .noFuel
  | fuel + 1, s, e, dg => get_max_gain_body v (get_max_gain v fuel) s e dg

theorem get_max_draw_down_zero (v : List ℚ) (s e : Nat) (dg : DataGroup) :
    get_max_draw_down v 0 s e dg = .error .noFuel := rfl

theorem get_max_draw_down_succ (v : List ℚ) (fuel s e : Nat) (dg : DataGroup) :
    get_max_draw_down v (fuel + 1) s e dg =
      get_max_draw_down_body v (get_max_draw_down v fuel) s e dg := rfl

theorem get_max_gain_zero (v : List ℚ) (s e : Nat) (dg : DataGroup) :
    get_max_gain v 0 s e dg = .error .noFuel := rfl

theorem get_max_gain_succ (v : List ℚ) (fuel s e : Nat) (dg : DataGroup) :
    get_max_gain v (fuel + 1) s e dg =
      get_max_gain_body v (get_max_gain v fuel) s e dg := rfl

/-- Element-wise negation of a series (the `negate(series)` of spec §8). -/
def negate (v : List ℚ) : List ℚ := v.map (fun x => -x)

theorem length_negate (v : List ℚ) : (negate v).length = v.length := by
  simp [negate]

theorem negate_getD (v : List ℚ) : ∀ i, (negate v).getD i 0 = -(v.getD i 0) := by
  induction v with
  | nil => intro i; simp [negate]
  | cons a t ih =>
    intro i
    cases i with
    | zero => simp [negate]
    | succ n => simpa [negate] using ih n

theorem firstNonzero_negate (v : List ℚ) :
    ∀ steps i, firstNonzero (negate v) i steps = firstNonzero v i steps := by
  intro steps
  induction steps with
  | zero => intro i; rfl
  | succ st ih =>
    intro i
    simp only [firstNonzero, negate_getD, ne_eq, neg_eq_zero, ih]

theorem adjustStart_negate (v : List ℚ) (s e : Nat) :
    adjustStart (negate v) s e = adjustStart v s e := by
  unfold adjustStart
  rw [firstNonzero_negate]

theorem scanExtrema_negate (v : List ℚ) :
    ∀ steps i ma mi, scanExtrema (negate v) i steps ma mi =
      ((scanExtrema v i steps mi ma).2, (scanExtrema v i steps mi ma).1) := by
  intro steps
  induction steps with
  | zero => intro i ma mi; rfl
  | succ st ih =>
    intro i ma mi
    simp only [scanExtrema, negate_getD, gt_iff_lt, neg_lt_neg_iff, ih]

theorem scanMinIdx_negate (v : List ℚ) :
    ∀ steps i a, scanMinIdx (negate v) i steps a = scanMaxIdx v i steps a := by
  intro steps
  induction steps with
  | zero => intro i a; rfl
  | succ st ih =>
    intro i a
    simp only [scanMinIdx, scanMaxIdx, negate_getD, gt_iff_lt, neg_lt_neg_iff, ih]

theorem scanMaxIdx_negate (v : List ℚ) :
    ∀ steps i a, scanMaxIdx (negate v) i steps a = scanMinIdx v i steps a := by
  intro steps
  induction steps with
  | zero => intro i a; rfl
  | succ st ih =>
    intro i a
    simp only [scanMinIdx, scanMaxIdx, negate_getD, gt_iff_lt, neg_lt_neg_iff, ih]

theorem incRunDown_negate (v : List ℚ) :
    ∀ steps i a, incRunDown (negate v) i steps a = incRunUp v i steps a := by
  intro steps
  induction steps with
  | zero => intro i a; rfl
  | succ st ih =>
    intro i a
    simp only [incRunDown, incRunUp, negate_getD, gt_iff_lt, neg_lt_neg_iff, ih]

theorem backRunDown_negate (v : List ℚ) :
    ∀ steps i a, backRunDown (negate v) i steps a = backRunUp v i steps a := by
  intro steps
  induction steps with
  | zero => intro i a; rfl
  | succ st ih =>
    intro i a
    simp only [backRunDown, backRunUp, negate_getD, gt_iff_lt, neg_lt_neg_iff, ih]

theorem gain_body_negate (v : List ℚ)
    (rec1 rec2 : Nat → Nat → DataGroup → Except RunFail (Errors × DataGroup))
    (hrec : ∀ a b c, rec1 a b c = rec2 a b c) (s e : Nat) (dg : DataGroup) :
    get_max_gain_body (negate v) rec1 s e dg = get_max_draw_down_body v rec2 s e dg := by
  simp only [get_max_gain_body, get_max_draw_down_body, length_negate, adjustStart_negate,
    scanExtrema_negate, negate_getD, scanMinIdx_negate, scanMaxIdx_negate,
    incRunDown_negate, backRunDown_negate, gt_iff_lt, neg_lt_neg_iff, neg_sub_neg, hrec]
  rcases Nat.lt_trichotomy
      (scanExtrema v (adjustStart v s e) (e + 1 - adjustStart v s e)
        (adjustStart v s e) (adjustStart v s e)).1
      (scanExtrema v (adjustStart v s e) (e + 1 - adjustStart v s e)
        (adjustStart v s e) (adjustStart v s e)).2 with h | h | h
  · simp [h]
  · simp [h]
  · simp [Nat.lt_asymm h, Nat.ne_of_gt h, Nat.ne_of_lt h]

/-- Claim C4: for every series and every range (and any fuel and incoming
`DataGroup`), the gain search applied to the negated series returns exactly the
drawdown search applied to the original series - the same error code and the
same `DataGroup` (in particular the same `data` magnitude), and the two crash
or run out of fuel in unison. -/
theorem c4_gain_negate_eq_draw_down (v : List ℚ) :
    ∀ fuel s e dg, get_max_gain (negate v) fuel s e dg = get_max_draw_down v fuel s e dg := by
  intro fuel
  induction fuel with
  | zero => intro s e dg; rfl
  | succ f ih =>
    intro s e dg
    rw [get_max_gain_succ, get_max_draw_down_succ]
    exact gain_body_negate v _ _ (fun a b c => ih a b c) s e dg

/-- Claim C1: on the cumulative log series of a monotonically rising two-period
series (`[0, 1, 2]`), `get_max_gain` returns the interval
`{0, N, series[N] - series[0]}` as claimed, but `get_max_draw_down` does not
return the degenerate interval: its backward inflexion scan
(`values[i - 1]` with `i = 0`) underflows and panics, at every fuel amount. -/
theorem c1_rising_drawdown_crash_gain_full :
    ∀ fuel : Nat,
      get_max_draw_down ([0, 1, 2] : List ℚ) (fuel + 1) 0 2 DataGroup.new = .error .crash ∧
      get_max_gain ([0, 1, 2] : List ℚ) (fuel + 1) 0 2 DataGroup.new =
        .ok (.ClErrorCodeInvalidPara, ⟨0, 2, 2⟩) := by
  intro fuel
  constructor
  · rw [get_max_draw_down_succ]
    norm_num [get_max_draw_down_body, adjustStart, firstNonzero, scanExtrema, scanMaxIdx,
      scanMinIdx, incRunUp, backRunUp]
  · rw [get_max_gain_succ]
    norm_num [get_max_gain_body, adjustStart, firstNonzero, scanExtrema]

theorem gmdd_loop_aux :
    ∀ fuel dg, get_max_draw_down ([0, 1, 1/2, 3/2] : List ℚ) fuel 1 3 dg = .error .noFuel := by
  intro fuel
  induction fuel with
  | zero => intro dg; rfl
  | succ f ih =>
    intro dg
    rw [get_max_draw_down_succ]
    norm_num [get_max_draw_down_body, adjustStart, firstNonzero, scanExtrema, scanMaxIdx,
      scanMinIdx, incRunUp, backRunUp, ih]

/-- Claim C10: `get_max_draw_down` does not terminate on every valid input.
On the finite series `[0, 1, 1/2, 3/2]` with the valid range
`start = 0 ≤ end = 3 < length = 4`, the call exhausts every fuel amount:
the interior recursion re-enters the state `(start, end) = (1, 3)` (whose
leading-zero adjustment moves `start` back to `0`) over and over, so the Rust
recursion never returns and its depth exceeds every bound. -/
theorem c10_nonterminating_input :
    ∀ fuel dg,
      get_max_draw_down ([0, 1, 1/2, 3/2] : List ℚ) fuel 0 3 dg = .error .noFuel := by
  intro fuel dg
  cases fuel with
  | zero => rfl
  | succ f =>
    rw [get_max_draw_down_succ]
    norm_num [get_max_draw_down_body, adjustStart, firstNonzero, scanExtrema, scanMaxIdx,
      scanMinIdx, incRunUp, backRunUp, gmdd_loop_aux f]

theorem firstNonzero_some (v : List ℚ) :
    ∀ steps i j, firstNonzero v i steps = some j →
      i ≤ j ∧ j < i + steps ∧ v.getD j 0 ≠ 0 ∧ ∀ k, i ≤ k → k < j → v.getD k 0 = 0 := by
  intro steps
  induction steps with
  | zero => intro i j h; exact absurd h (by simp [firstNonzero])
  | succ st ih =>
    intro i j h
    rw [firstNonzero] at h
    by_cases hz : v.getD i 0 ≠ 0
    · rw [if_pos hz] at h
      injection h with h
      subst h
      exact ⟨Nat.le_refl _, by omega, hz, fun k hk1 hk2 => by omega⟩
    · rw [if_neg hz] at h
      push_neg at hz
      obtain ⟨h1, h2, h3, h4⟩ := ih (i + 1) j h
      refine ⟨by omega, by omega, h3, fun k hk1 hk2 => ?_⟩
      rcases Nat.eq_or_lt_of_le hk1 with hk | hk
      · rw [← hk]; exact hz
      · exact h4 k hk hk2

theorem firstNonzero_none (v : List ℚ) :
    ∀ steps i, firstNonzero v i steps = none →
      ∀ k, i ≤ k → k < i + steps → v.getD k 0 = 0 := by
  intro steps
  induction steps with
  | zero => intro i _ k hk1 hk2; omega
  | succ st ih =>
    intro i h k hk1 hk2
    rw [firstNonzero] at h
    by_cases hz : v.getD i 0 ≠ 0
    · rw [if_pos hz] at h; exact absurd h (by simp)
    · rw [if_neg hz] at h
      push_neg at hz
      rcases Nat.eq_or_lt_of_le hk1 with hk | hk
      · rw [← hk]; exact hz
      · exact ih (i + 1) h k hk (by omega)

theorem adjustStart_le (v : List ℚ) {s e : Nat} (hse : s ≤ e) : adjustStart v s e ≤ e := by
  unfold adjustStart
  rcases hfn : firstNonzero v s (e + 1 - s) with _ | i
  · exact hse
  · show (if i > 0 then i - 1 else i) ≤ e
    obtain ⟨h1, h2, _, _⟩ := firstNonzero_some v (e + 1 - s) s i hfn
    by_cases hi : i > 0
    · simp only [if_pos hi]; omega
    · simp only [if_neg hi]; omega

theorem adjustStart_ge (v : List ℚ) (s e : Nat) : s ≤ adjustStart v s e + 1 := by
  unfold adjustStart
  rcases hfn : firstNonzero v s (e + 1 - s) with _ | i
  · show s ≤ s + 1
    omega
  · show s ≤ (if i > 0 then i - 1 else i) + 1
    obtain ⟨h1, _, _, _⟩ := firstNonzero_some v (e + 1 - s) s i hfn
    by_cases hi : i > 0
    · simp only [if_pos hi]; omega
    · simp only [if_neg hi]; omega

theorem scanExtrema_fst_spec (v : List ℚ) :
    ∀ steps i ma mi r, ma ≤ i → (scanExtrema v i steps ma mi).1 = r →
      (r = ma ∨ (i ≤ r ∧ r < i + steps ∧ v.getD ma 0 < v.getD r 0)) ∧
      v.getD ma 0 ≤ v.getD r 0 ∧
      (∀ j, i ≤ j → j < i + steps →
        v.getD j 0 ≤ v.getD r 0 ∧ (j < r → v.getD j 0 < v.getD r 0)) := by
  intro steps
  induction steps with
  | zero =>
    intro i ma mi r hma hr
    simp only [scanExtrema] at hr
    subst hr
    exact ⟨Or.inl rfl, le_refl _, fun j hj1 hj2 => by omega⟩
  | succ st ih =>
    intro i ma mi r hma hr
    rw [scanExtrema] at hr
    by_cases hc : v.getD i 0 > v.getD ma 0
    · rw [if_pos hc] at hr
      obtain ⟨A, B, C⟩ := ih (i + 1) i _ r (by omega) hr
      refine ⟨?_, le_of_lt (lt_of_lt_of_le hc B), fun j hj1 hj2 => ?_⟩
      · rcases A with rfl | ⟨hA1, hA2, hA3⟩
        · exact Or.inr ⟨le_refl _, by omega, hc⟩
        · exact Or.inr ⟨by omega, by omega, lt_trans hc hA3⟩
      · rcases Nat.eq_or_lt_of_le hj1 with hj | hj
        · subst hj
          refine ⟨B, fun hjr => ?_⟩
          rcases A with rfl | ⟨_, _, hA3⟩
          · omega
          · exact hA3
        · exact C j hj (by omega)
    · rw [if_neg hc] at hr
      push_neg at hc
      obtain ⟨A, B, C⟩ := ih (i + 1) ma _ r (by omega) hr
      refine ⟨?_, B, fun j hj1 hj2 => ?_⟩
      · rcases A with rfl | ⟨hA1, hA2, hA3⟩
        · exact Or.inl rfl
        · exact Or.inr ⟨by omega, by omega, hA3⟩
      · rcases Nat.eq_or_lt_of_le hj1 with hj | hj
        · subst hj
          refine ⟨le_trans hc B, fun hjr => ?_⟩
          rcases A with rfl | ⟨_, _, hA3⟩
          · omega
          · exact lt_of_le_of_lt hc hA3
        · exact C j hj (by omega)

theorem scanExtrema_snd_spec (v : List ℚ) :
    ∀ steps i ma mi r, mi ≤ i → (scanExtrema v i steps ma mi).2 = r →
      (r = mi ∨ (i ≤ r ∧ r < i + steps ∧ v.getD r 0 < v.getD mi 0)) ∧
      v.getD r 0 ≤ v.getD mi 0 ∧
      (∀ j, i ≤ j → j < i + steps →
        v.getD r 0 ≤ v.getD j 0 ∧ (j < r → v.getD r 0 < v.getD j 0)) := by
  intro steps
  induction steps with
  | zero =>
    intro i ma mi r hmi hr
    simp only [scanExtrema] at hr
    subst hr
    exact ⟨Or.inl rfl, le_refl _, fun j hj1 hj2 => by omega⟩
  | succ st ih =>
    intro i ma mi r hmi hr
    rw [scanExtrema] at hr
    by_cases hc : v.getD i 0 < v.getD mi 0
    · rw [if_pos hc] at hr
      obtain ⟨A, B, C⟩ := ih (i + 1) _ i r (by omega) hr
      refine ⟨?_, le_of_lt (lt_of_le_of_lt B hc), fun j hj1 hj2 => ?_⟩
      · rcases A with rfl | ⟨hA1, hA2, hA3⟩
        · exact Or.inr ⟨le_refl _, by omega, hc⟩
        · exact Or.inr ⟨by omega, by omega, lt_trans hA3 hc⟩
      · rcases Nat.eq_or_lt_of_le hj1 with hj | hj
        · subst hj
          refine ⟨B, fun hjr => ?_⟩
          rcases A with rfl | ⟨_, _, hA3⟩
          · omega
          · exact hA3
        · exact C j hj (by omega)
    · rw [if_neg hc] at hr
      push_neg at hc
      obtain ⟨A, B, C⟩ := ih (i + 1) _ mi r (by omega) hr
      refine ⟨?_, B, fun j hj1 hj2 => ?_⟩
      · rcases A with rfl | ⟨hA1, hA2, hA3⟩
        · exact Or.inl rfl
        · exact Or.inr ⟨by omega, by omega, hA3⟩
      · rcases Nat.eq_or_lt_of_le hj1 with hj | hj
        · subst hj
          refine ⟨le_trans B hc, fun hjr => ?_⟩
          rcases A with rfl | ⟨_, _, hA3⟩
          · omega
          · exact lt_of_lt_of_le hA3 hc
        · exact C j hj (by omega)

/-- Claim C6: for every finite series and valid range, `get_max_draw_down`
first locates `max_index` and `min_index` over the working range (the range
whose start is the leading-zero-adjusted `start` of spec step 0) with the
earliest index winning ties; if `max_index = min_index` it returns the
zero-magnitude sentinel interval, and if `max_index < min_index` it returns
`{max_index, min_index, series[max_index] - series[min_index]}`. -/
theorem c6_extrema_earliest_and_branches (v : List ℚ) (s e fuel : Nat) (dg : DataGroup)
    (hse : s ≤ e) (hlen : e < v.length)
    (s' ma mi : Nat) (hs : adjustStart v s e = s')
    (hp : scanExtrema v s' (e + 1 - s') s' s' = (ma, mi)) :
    (s' ≤ ma ∧ ma ≤ e ∧
      (∀ j, s' ≤ j → j ≤ e → v.getD j 0 ≤ v.getD ma 0) ∧
      (∀ j, s' ≤ j → j < ma → v.getD j 0 < v.getD ma 0)) ∧
    (s' ≤ mi ∧ mi ≤ e ∧
      (∀ j, s' ≤ j → j ≤ e → v.getD mi 0 ≤ v.getD j 0) ∧
      (∀ j, s' ≤ j → j < mi → v.getD mi 0 < v.getD j 0)) ∧
    (ma = mi → get_max_draw_down v (fuel + 1) s e dg = .ok (.ClErrorCodeInvalidPara, ⟨0, 0, 0⟩)) ∧
    (ma < mi → get_max_draw_down v (fuel + 1) s e dg =
      .ok (.ClErrorCodeInvalidPara, ⟨ma, mi, v.getD ma 0 - v.getD mi 0⟩)) := by
  have hs'e : s' ≤ e := hs ▸ adjustStart_le v hse
  obtain ⟨A1, B1, C1⟩ :=
    scanExtrema_fst_spec v (e + 1 - s') s' s' s' ma (le_refl s') (by rw [hp])
  obtain ⟨A2, B2, C2⟩ :=
    scanExtrema_snd_spec v (e + 1 - s') s' s' s' mi (le_refl s') (by rw [hp])
  have hbody : ∀ fu : Nat, get_max_draw_down v (fu + 1) s e dg =
      (if ma < mi then
        .ok (.ClErrorCodeInvalidPara, (⟨ma, mi, v.getD ma 0 - v.getD mi 0⟩ : DataGroup))
      else if ma = mi then .ok (.ClErrorCodeInvalidPara, (⟨0, 0, 0⟩ : DataGroup))
      else get_max_draw_down_body v (get_max_draw_down v fu) s e dg) := by
    intro fu
    rw [get_max_draw_down_succ]
    by_cases h1 : ma < mi
    · rw [if_pos h1]
      unfold get_max_draw_down_body
      rw [if_neg (show ¬(v.length = 0 ∨ e ≥ v.length) by omega), hs]
      simp only [hp]
      rw [if_pos h1]
    · rw [if_neg h1]
      by_cases h2 : ma = mi
      · rw [if_pos h2]
        unfold get_max_draw_down_body
        rw [if_neg (show ¬(v.length = 0 ∨ e ≥ v.length) by omega), hs]
        simp only [hp]
        rw [if_neg h1, if_pos h2]
      · rw [if_neg h2]
  refine ⟨⟨?_, ?_, ?_, ?_⟩, ⟨?_, ?_, ?_, ?_⟩, ?_, ?_⟩
  · rcases A1 with rfl | ⟨h, _, _⟩
    · exact le_refl _
    · exact h
  · rcases A1 with rfl | ⟨_, h, _⟩
    · exact hs'e
    · omega
  · intro j hj1 hj2
    exact (C1 j hj1 (by omega)).1
  · intro j hj1 hj2
    exact (C1 j hj1 (by omega)).2 hj2
  · rcases A2 with rfl | ⟨h, _, _⟩
    · exact le_refl _
    · exact h
  · rcases A2 with rfl | ⟨_, h, _⟩
    · exact hs'e
    · omega
  · intro j hj1 hj2
    exact (C2 j hj1 (by omega)).1
  · intro j hj1 hj2
    exact (C2 j hj1 (by omega)).2 hj2
  · intro h2
    rw [hbody fuel, if_neg (by omega), if_pos h2]
  · intro h1
    rw [hbody fuel, if_pos h1]

theorem c6_witness :
    get_max_draw_down ([0, -1] : List ℚ) 1 0 1 DataGroup.new =
      .ok (.ClErrorCodeInvalidPara, ⟨0, 1, 1⟩) := by
  have h := (c6_extrema_earliest_and_branches ([0, -1] : List ℚ) 0 1 0 DataGroup.new
      (by norm_num) (by norm_num) 0 0 1 (by decide) (by decide)).2.2.2 (by norm_num)
  norm_num [List.getD] at h
  exact h

/-- Claim C7 counterexample: with `values = [5, 1, 2]`, `start = 1`, `end = 2`,
the leading-zero adjustment of `get_max_draw_down`/`get_max_gain` moves
`start` to `0`, which lies outside the original range `[1, 2]` and does not
hold a zero value - refuting both "the adjusted start never leaves the
original range" and "advance start to the last exact-zero value". -/
theorem c7_adjust_leaves_range_counterexample :
    adjustStart ([5, 1, 2] : List ℚ) 1 2 = 0 ∧
    ¬ (1 ≤ adjustStart ([5, 1, 2] : List ℚ) 1 2) ∧
    ([5, 1, 2] : List ℚ).getD (adjustStart ([5, 1, 2] : List ℚ) 1 2) 0 ≠ 0 := by
  refine ⟨?_, ?_, ?_⟩ <;> norm_num [adjustStart, firstNonzero, List.getD]

/-- Claim C7 (amended): the adjustment sets `start` to one before the first
nonzero sample of the range (clamped at `0`), so it may move one position to
the left of the original range; it never moves further than that, never goes
past `end`, and in the top-level situation where `values[start] = 0` (every
public call passes `start = 0` pointing at the synthetic leading zero) it
stays inside `[start, end]`, lands on a zero value, skips only zeros, and
stops at the last zero at or before the first nonzero sample. -/
theorem c7_adjust_start_spec (v : List ℚ) (s e : Nat) (hse : s ≤ e) :
    s ≤ adjustStart v s e + 1 ∧ adjustStart v s e ≤ e ∧
    (v.getD s 0 = 0 →
      s ≤ adjustStart v s e ∧
      (∀ j, s ≤ j → j ≤ adjustStart v s e → v.getD j 0 = 0) ∧
      (adjustStart v s e = s ∧ (∀ j, s ≤ j → j ≤ e → v.getD j 0 = 0) ∨
        v.getD (adjustStart v s e + 1) 0 ≠ 0)) := by
  refine ⟨adjustStart_ge v s e, adjustStart_le v hse, fun hv0 => ?_⟩
  rcases hfn : firstNonzero v s (e + 1 - s) with _ | i
  · have hadj : adjustStart v s e = s := by unfold adjustStart; rw [hfn]
    have hall := firstNonzero_none v (e + 1 - s) s hfn
    rw [hadj]
    exact ⟨le_refl s, fun j hj1 hj2 => hall j hj1 (by omega),
      Or.inl ⟨rfl, fun j hj1 hj2 => hall j hj1 (by omega)⟩⟩
  · obtain ⟨h1, h2, h3, h4⟩ := firstNonzero_some v (e + 1 - s) s i hfn
    have his : s < i := by
      rcases Nat.eq_or_lt_of_le h1 with h | h
      · rw [← h] at h3; exact absurd hv0 h3
      · exact h
    have hadj : adjustStart v s e = i - 1 := by
      unfold adjustStart; rw [hfn]; exact if_pos (by omega)
    rw [hadj]
    have hi1 : i - 1 + 1 = i := by omega
    refine ⟨by omega, fun j hj1 hj2 => h4 j hj1 (by omega), Or.inr ?_⟩
    rw [hi1]
    exact h3

theorem c7_adjust_start_spec_witness :
    (0 : Nat) ≤ adjustStart ([0, 5] : List ℚ) 0 1 + 1 ∧
    adjustStart ([0, 5] : List ℚ) 0 1 ≤ 1 ∧
    (([0, 5] : List ℚ).getD 0 0 = 0 →
      (0 : Nat) ≤ adjustStart ([0, 5] : List ℚ) 0 1 ∧
      (∀ j, 0 ≤ j → j ≤ adjustStart ([0, 5] : List ℚ) 0 1 → ([0, 5] : List ℚ).getD j 0 = 0) ∧
      (adjustStart ([0, 5] : List ℚ) 0 1 = 0 ∧
          (∀ j, 0 ≤ j → j ≤ 1 → ([0, 5] : List ℚ).getD j 0 = 0) ∨
        ([0, 5] : List ℚ).getD (adjustStart ([0, 5] : List ℚ) 0 1 + 1) 0 ≠ 0)) :=
  c7_adjust_start_spec ([0, 5] : List ℚ) 0 1 (by norm_num)

/-- Inner while-loop of `get_last_up_down_streak` (absolute_statistics.rs
lines 3042-3053): starting at `i`, skip non-finite samples, extend the streak
while `cmp` holds, stop at the first sign-violating finite sample.  `steps` is
the remaining iteration budget `e - i`, mirroring the `i < end` guard. -/
def streakGo (v : List (Option ℚ)) (cmp : ℚ → Bool) : Nat → Nat → DataGroup → DataGroup
  | _, 0, st => st
  | i, steps + 1, st =>
    match v.getD i none with
    | none => streakGo v cmp (i + 1) steps st
    | some q =>
      if cmp q then streakGo v cmp (i + 1) steps ⟨st.start, i, st.data * (q / 100 + 1)⟩
      else st

/-- The candidate streak started at outer index `i` (the `streak` local of
lines 3037-3041 after the inner while-loop has run). -/
def streakAt (v : List (Option ℚ)) (e : Nat) (cmp : ℚ → Bool) (i : Nat) : DataGroup :=
  streakGo v cmp i (e - i) ⟨i, i, 1⟩

/-- One iteration of the outer `for` loop of `get_last_up_down_streak`
(lines 3032-3059): skip a non-finite start, otherwise build the candidate
streak and keep it when `streak.data != 1.0` and its index span is at least
the span kept so far. -/
def streakStep (v : List (Option ℚ)) (e : Nat) (cmp : ℚ → Bool) (fin : DataGroup) (i : Nat) :
    DataGroup :=
  match v.getD i none with
  | none => fin
  | some _ =>
    if (streakAt v e cmp i).data ≠ 1 ∧
        fin.endI - fin.start ≤ (streakAt v e cmp i).endI - (streakAt v e cmp i).start
    then streakAt v e cmp i else fin

/-- The outer `for i in start..end` loop of `get_last_up_down_streak`. -/
def streakScan (v : List (Option ℚ)) (e : Nat) (cmp : ℚ → Bool) : Nat → Nat → DataGroup → DataGroup
  | _, 0, fin => fin
  | i, steps + 1, fin => streakScan v e cmp (i + 1) steps (streakStep v e cmp fin i)

/-- `get_last_up_down_streak(values, start, end, cmp_fn)` (lines 3021-3063):
runs the outer scan from `start` with the initial degenerate streak
`{start, start, 1.0}` and converts the kept compounding factor to a
percentage. -/
def get_last_up_down_streak (v : List (Option ℚ)) (s e : Nat) (cmp : ℚ → Bool) : DataGroup :=
  let finalStreak := streakScan v e cmp s (e - s) ⟨s, s, 1⟩
  ⟨finalStreak.start, finalStreak.endI, (finalStreak.data - 1) * 100⟩

theorem streakGo_start (v : List (Option ℚ)) (cmp : ℚ → Bool) :
    ∀ steps i st, (streakGo v cmp i steps st).start = st.start := by
  intro steps
  induction steps with
  | zero => intro i st; rfl
  | succ n ih =>
    intro i st
    rw [streakGo]
    rcases hv : v.getD i none with _ | q
    · exact ih (i + 1) st
    · by_cases hc : cmp q
      · simp only [if_pos hc]
        exact ih (i + 1) _
      · simp only [if_neg hc]

theorem streakAt_start (v : List (Option ℚ)) (e : Nat) (cmp : ℚ → Bool) (i : Nat) :
    (streakAt v e cmp i).start = i :=
  streakGo_start v cmp (e - i) i ⟨i, i, 1⟩

theorem streakStep_span_mono (v : List (Option ℚ)) (e : Nat) (cmp : ℚ → Bool)
    (fin : DataGroup) (i : Nat) :
    fin.endI - fin.start ≤ (streakStep v e cmp fin i).endI - (streakStep v e cmp fin i).start := by
  unfold streakStep
  rcases hv : v.getD i none with _ | q
  · exact le_refl _
  · by_cases hc : (streakAt v e cmp i).data ≠ 1 ∧
        fin.endI - fin.start ≤ (streakAt v e cmp i).endI - (streakAt v e cmp i).start
    · simp only [if_pos hc]
      exact hc.2
    · simp only [if_neg hc]
      exact le_refl _

theorem streakScan_span_mono (v : List (Option ℚ)) (e : Nat) (cmp : ℚ → Bool) :
    ∀ steps i fin, fin.endI - fin.start ≤
      (streakScan v e cmp i steps fin).endI - (streakScan v e cmp i steps fin).start := by
  intro steps
  induction steps with
  | zero => intro i fin; exact le_refl _
  | succ n ih =>
    intro i fin
    rw [streakScan]
    exact le_trans (streakStep_span_mono v e cmp fin i) (ih (i + 1) _)

theorem streakScan_start_cases (v : List (Option ℚ)) (e : Nat) (cmp : ℚ → Bool) :
    ∀ steps i fin, (streakScan v e cmp i steps fin).start = fin.start ∨
      i ≤ (streakScan v e cmp i steps fin).start := by
  intro steps
  induction steps with
  | zero => intro i fin; exact Or.inl rfl
  | succ n ih =>
    intro i fin
    rw [streakScan]
    rcases ih (i + 1) (streakStep v e cmp fin i) with h | h
    · rw [h]
      rcases hv : v.getD i none with _ | q
      · have hstep : streakStep v e cmp fin i = fin := by unfold streakStep; rw [hv]
        rw [hstep]
        exact Or.inl rfl
      · by_cases hc : (streakAt v e cmp i).data ≠ 1 ∧
            fin.endI - fin.start ≤ (streakAt v e cmp i).endI - (streakAt v e cmp i).start
        · have hstep : streakStep v e cmp fin i = streakAt v e cmp i := by
            unfold streakStep; rw [hv]; exact if_pos hc
          rw [hstep, streakAt_start]
          exact Or.inr (le_refl i)
        · have hstep : streakStep v e cmp fin i = fin := by
            unfold streakStep; rw [hv]; exact if_neg hc
          rw [hstep]
          exact Or.inl rfl
    · exact Or.inr (by omega)

theorem streakScan_dominates (v : List (Option ℚ)) (e : Nat) (cmp : ℚ → Bool) :
    ∀ steps i fin j, i ≤ j → j < i + steps → (v.getD j none).isSome = true →
      (streakAt v e cmp j).data ≠ 1 →
      (streakAt v e cmp j).endI - (streakAt v e cmp j).start ≤
        (streakScan v e cmp i steps fin).endI - (streakScan v e cmp i steps fin).start := by
  intro steps
  induction steps with
  | zero => intro i fin j h1 h2; omega
  | succ n ih =>
    intro i fin j h1 h2 hsome hq
    rw [streakScan]
    rcases Nat.eq_or_lt_of_le h1 with hj | hj
    · subst hj
      obtain ⟨q, hv⟩ := Option.isSome_iff_exists.mp hsome
      by_cases hc : fin.endI - fin.start ≤
          (streakAt v e cmp i).endI - (streakAt v e cmp i).start
      · have hstep : streakStep v e cmp fin i = streakAt v e cmp i := by
          unfold streakStep
          rw [hv]
          exact if_pos ⟨hq, hc⟩
        rw [hstep]
        exact streakScan_span_mono v e cmp n (i + 1) _
      · push_neg at hc
        have hstep : streakStep v e cmp fin i = fin := by
          unfold streakStep
          rw [hv]
          exact if_neg (fun h => absurd h.2 (by omega))
        rw [hstep]
        exact le_trans (le_of_lt hc) (streakScan_span_mono v e cmp n (i + 1) fin)
    · exact ih (i + 1) _ j hj (by omega) hsome hq

theorem streakScan_last_tie (v : List (Option ℚ)) (e : Nat) (cmp : ℚ → Bool) :
    ∀ steps i fin j, i ≤ j → j < i + steps → (v.getD j none).isSome = true →
      (streakAt v e cmp j).data ≠ 1 →
      (streakScan v e cmp i steps fin).endI - (streakScan v e cmp i steps fin).start ≤
        (streakAt v e cmp j).endI - (streakAt v e cmp j).start →
      j ≤ (streakScan v e cmp i steps fin).start := by
  intro steps
  induction steps with
  | zero => intro i fin j h1 h2; omega
  | succ n ih =>
    intro i fin j h1 h2 hsome hq hle
    rw [streakScan] at hle ⊢
    rcases Nat.eq_or_lt_of_le h1 with hj | hj
    · subst hj
      obtain ⟨q, hv⟩ := Option.isSome_iff_exists.mp hsome
      have hfinle : fin.endI - fin.start ≤
          (streakAt v e cmp i).endI - (streakAt v e cmp i).start :=
        le_trans (le_trans (streakStep_span_mono v e cmp fin i)
          (streakScan_span_mono v e cmp n (i + 1) _)) hle
      have hstep : streakStep v e cmp fin i = streakAt v e cmp i := by
        unfold streakStep
        rw [hv]
        exact if_pos ⟨hq, hfinle⟩
      rw [hstep] at hle ⊢
      rcases streakScan_start_cases v e cmp n (i + 1) (streakAt v e cmp i) with h | h
      · rw [h, streakAt_start]
      · omega
    · exact ih (i + 1) _ j hj (by omega) hsome hq hle

/-- Claim C3 counterexample: for the up-streak scan of `[1%, -1%, 1%]` there
are two qualifying runs of equal (zero) index span, starting at indices `0`
and `2`; the claim says the first-found run (start `0`) wins the tie, but
`get_last_up_down_streak` keeps the run starting at index `2` - the
last-found equal-span run wins, because the keep condition uses `>=`. -/
theorem c3_tie_last_wins_counterexample :
    get_last_up_down_streak [some 1, some (-1), some 1] 0 3 (fun q => decide (q > 0)) =
      ⟨2, 2, 1⟩ ∧
    streakAt [some 1, some (-1), some 1] 3 (fun q => decide (q > 0)) 0 = ⟨0, 0, 101 / 100⟩ := by
  constructor
  · norm_num [get_last_up_down_streak, streakScan, streakStep, streakAt, streakGo, List.getD]
  · norm_num [streakAt, streakGo, List.getD]

/-- Claim C3 (amended): `get_last_up_down_streak` keeps a qualifying run of
the greatest index span, but when two qualifying runs have equal span the
last-found (latest-starting) run wins the tie, since the keep condition
compares spans with `>=`: every qualifying candidate run's span is at most
the span of the result, and any qualifying candidate whose span reaches the
result's span must start at or before the result's start. -/
theorem c3_streak_greatest_span_last_tie (v : List (Option ℚ)) (s e : Nat) (cmp : ℚ → Bool)
    (j : Nat) (hsj : s ≤ j) (hje : j < e)
    (hsome : (v.getD j none).isSome = true)
    (hq : (streakAt v e cmp j).data ≠ 1) :
    (streakAt v e cmp j).endI - (streakAt v e cmp j).start ≤
      (get_last_up_down_streak v s e cmp).endI - (get_last_up_down_streak v s e cmp).start ∧
    ((get_last_up_down_streak v s e cmp).endI - (get_last_up_down_streak v s e cmp).start ≤
        (streakAt v e cmp j).endI - (streakAt v e cmp j).start →
      j ≤ (get_last_up_down_streak v s e cmp).start) := by
  have h1 : (get_last_up_down_streak v s e cmp).start =
      (streakScan v e cmp s (e - s) ⟨s, s, 1⟩).start := rfl
  have h2 : (get_last_up_down_streak v s e cmp).endI =
      (streakScan v e cmp s (e - s) ⟨s, s, 1⟩).endI := rfl
  rw [h1, h2]
  constructor
  · exact streakScan_dominates v e cmp (e - s) s ⟨s, s, 1⟩ j hsj (by omega) hsome hq
  · exact streakScan_last_tie v e cmp (e - s) s ⟨s, s, 1⟩ j hsj (by omega) hsome hq

theorem c3_streak_greatest_span_last_tie_witness :
    (streakAt [some 1, some (-1), some 1] 3 (fun q => decide (q > 0)) 0).endI -
        (streakAt [some 1, some (-1), some 1] 3 (fun q => decide (q > 0)) 0).start ≤
      (get_last_up_down_streak [some 1, some (-1), some 1] 0 3
            (fun q => decide (q > 0))).endI -
        (get_last_up_down_streak [some 1, some (-1), some 1] 0 3
            (fun q => decide (q > 0))).start ∧
    ((get_last_up_down_streak [some 1, some (-1), some 1] 0 3
            (fun q => decide (q > 0))).endI -
        (get_last_up_down_streak [some 1, some (-1), some 1] 0 3
            (fun q => decide (q > 0))).start ≤
      (streakAt [some 1, some (-1), some 1] 3 (fun q => decide (q > 0)) 0).endI -
        (streakAt [some 1, some (-1), some 1] 3 (fun q => decide (q > 0)) 0).start →
      0 ≤ (get_last_up_down_streak [some 1, some (-1), some 1] 0 3
            (fun q => decide (q > 0))).start) :=
  c3_streak_greatest_span_last_tie [some 1, some (-1), some 1] 0 3 (fun q => decide (q > 0)) 0
    (by norm_num) (by norm_num) (by norm_num [List.getD])
    (by norm_num [streakAt, streakGo, List.getD])

/-- Cast of an `i32` value to the 64-bit `usize`, as in `best_months_num as
usize`: non-negative values unchanged, negative values wrap modulo `2^64`. -/
def usizeOfI32 (n : ℤ) : Nat := (n % (2 ^ 64 : ℤ)).toNat

/-- f64 multiplication on the `Option ℚ` carrier: NaN propagates. -/
def omul : Option ℚ → Option ℚ → Option ℚ
  | some a, some b => some (a * b)
  | _, _ => none

/-- f64 ordered comparison on the `Option ℚ` carrier: any ordered comparison
involving NaN is false. -/
def ocmp (cmp : ℚ → ℚ → Bool) : Option ℚ → Option ℚ → Bool
  | some a, some b => cmp a b
  | _, _ => false

/-- Adjacent-pair loop of `is_sorted_array` (common.rs lines 147-151). -/
def sortedChk (data : List ℤ) (isAsc : Bool) : Nat → Nat → Bool
  | _, 0 => true
  | i, steps + 1 =>
      if (decide (data.getD i 0 > data.getD (i - 1) 0)) != isAsc then false
      else sortedChk data isAsc (i + 1) steps

/-- `is_sorted_array` (common.rs lines 142-153): `false` for fewer than two
elements, otherwise the direction of the first adjacent pair must be shared
by every later adjacent pair. -/
def is_sorted_array (data : List ℤ) : Bool :=
  if data.length < 2 then false
  else sortedChk data (decide (data.getD 1 0 > data.getD 0 0)) 2 (data.length - 2)

/-- Window product `while pos < best_months_num { f *= 1.0 + values[x.0 - pos]
/ 100.0; pos += 1 }` of `best_worth_rolling_month` (lines 2861-2865); `k` is
the remaining iteration count. -/
def windowProd (v : List (Option ℚ)) (idx : Nat) : Nat → Nat → Option ℚ → Option ℚ
  | _, 0, f => f
  | pos, k + 1, f =>
      windowProd v idx (pos + 1) k (omul f ((v.getD (idx - pos) none).map (fun q => 1 + q / 100)))

/-- The `try_for_each` loop of `best_worth_rolling_month` (lines 2851-2876):
a non-finite sample breaks out (the function then returns `NoError` with the
outputs as already written); for each index at or past `best_months_num - 1`
the window product is compared against the best so far, and on an update the
date is read from `dates` (panicking when `dates` is too short) before the
value is stored. -/
def bwrLoop (v : List (Option ℚ)) (dates : List ℤ) (num : ℤ) (cmp : ℚ → ℚ → Bool) :
    Nat → Nat → ℤ → Option ℚ → Except RunFail (ℤ × Option ℚ)
  | _, 0, d, val => .ok (d, val)
  | idx, steps + 1, d, val =>
    match v.getD idx none with
    | none => .ok (d, val)
    | some _ =>
      if idx ≥ usizeOfI32 (num - 1) then
        let f := (windowProd v idx 0 num.toNat (some 1)).map (fun q => (q - 1) * 100)
        if val.isNone || ocmp cmp f val then
          match dates.get? idx with
          | none => .error .crash
          | some dd => bwrLoop v dates num cmp (idx + 1) steps dd f
        else bwrLoop v dates num cmp (idx + 1) steps d val
      else bwrLoop v dates num cmp (idx + 1) steps d val

/-- `best_worth_rolling_month` (lines 2833-2883).  `d0`/`val0` are the
caller-visible initial values of the two out-parameters (returned unchanged
on the two early validation returns, before the function writes `0`/NaN). -/
def best_worth_rolling_month (v : List (Option ℚ)) (dates : List ℤ) (num : ℤ)
    (cmp : ℚ → ℚ → Bool) (d0 : ℤ) (val0 : Option ℚ) :
    Except RunFail (Errors × ℤ × Option ℚ) :=
  if v.length = 0 ∨ usizeOfI32 num > v.length then .ok (.ClErrorCodeInvalidPara, d0, val0)
  else if is_sorted_array dates = false then .ok (.ClErrorCodeInvalidOutput, d0, val0)
  else (bwrLoop v dates num cmp 0 v.length 0 none).map (fun r => (.ClErrorCodeNoError, r.1, r.2))

/-- `best_rolling_month` (lines 2937-2951): `best_worth_rolling_month` with
the greater-than comparator. -/
def best_rolling_month (v : List (Option ℚ)) (dates : List ℤ) (num : ℤ)
    (d0 : ℤ) (val0 : Option ℚ) : Except RunFail (Errors × ℤ × Option ℚ) :=
  best_worth_rolling_month v dates num (fun a b => decide (a > b)) d0 val0

/-- `worst_rolling_month` (lines 3005-3019): `best_worth_rolling_month` with
the less-than comparator. -/
def worst_rolling_month (v : List (Option ℚ)) (dates : List ℤ) (num : ℤ)
    (d0 : ℤ) (val0 : Option ℚ) : Except RunFail (Errors × ℤ × Option ℚ) :=
  best_worth_rolling_month v dates num (fun a b => decide (a < b)) d0 val0

/-- The six out-parameters of the public `max_draw_down`. -/
structure MDDOut where
  mdd : Option ℚ
  peekDate : ℤ
  valleyDate : ℤ
  months : ℤ
  recoveryMonth : ℤ
  recoveryDate : ℤ
  deriving DecidableEq, Repr

/-- Accumulation loop of `max_draw_down`/`max_gain` (lines 2330-2343):
produces the partial sums `acc + ln1p(vᵢ)`, or `none` as soon as a non-finite
sample is found (the Rust code then returns early). -/
def logAccumGo (ln1p : ℚ → ℚ) : List (Option ℚ) → ℚ → Option (List ℚ)
  | [], _ => some []
  | none :: _, _ => none
  | some q :: rest, acc =>
      (logAccumGo ln1p rest (acc + ln1p q)).map (fun l => (acc + ln1p q) :: l)

/-- The cumulative log series `log_accum_series`: element 0 is `0.0`, element
`i+1` adds `ln1p(values[i])` (the Rust `(1.0 + v/100.0).ln()`, abstracted as
the parameter `ln1p`); `none` when any input sample is non-finite. -/
def logAccum (ln1p : ℚ → ℚ) (v : List (Option ℚ)) : Option (List ℚ) :=
  (logAccumGo ln1p v 0).map (fun l => 0 :: l)

/-- Recovery loop of `max_draw_down` (lines 2360-2366): first index `i` in
`[i, i+steps)` with `log_accum_series[i] >= log_accum_series[dg.start]`. -/
def recoveryScan (ls : List ℚ) (peak : ℚ) : Nat → Nat → Option Nat
  | _, 0 => none
  | i, steps + 1 => if ls.getD i 0 ≥ peak then some i else recoveryScan ls peak (i + 1) steps

/-- The public `max_draw_down` (lines 2309-2374).  `ln1p` abstracts
`x ↦ ln(1 + x/100)`, `expPct` abstracts `x ↦ (exp x - 1) * 100`, and `pBegin`
abstracts `date_util::to_period_begin_int(freq, ·)` for the fixed frequency
of the call (the calendar is the external Period-Boundary collaborator of
spec §6).  `out0` is the caller-visible initial value of the six
out-parameters, returned unchanged on the empty-input `InvalidPara` return. -/
def max_draw_down (ln1p expPct : ℚ → ℚ) (pBegin : ℤ → ℤ) (fuel : Nat)
    (values : List (Option ℚ)) (dates : List ℤ) (out0 : MDDOut) :
    Except RunFail (Errors × MDDOut) :=
  if values.length = 0 then .ok (.ClErrorCodeInvalidPara, out0)
  else
    let out : MDDOut := ⟨none, 0, 0, 0, 0, 0⟩
    match logAccum ln1p values with
    | none => .ok (.ClErrorCodeNoError, out)
    | some ls =>
      match get_max_draw_down ls fuel 0 (ls.length - 1) DataGroup.new with
      | .error r => .error r
      | .ok (_, dg) =>
        if dg.start < dg.endI ∧ dg.data ≠ 0 then
          match dates.get? dg.start with
          | none => .error .crash
          | some pd =>
            match dates.get? (dg.endI - 1) with
            | none => .error .crash
            | some vd =>
              let out1 : MDDOut :=
                ⟨some (expPct (-dg.data)), pBegin pd, vd, ((dg.endI - dg.start : Nat) : ℤ), 0, 0⟩
              match recoveryScan ls (ls.getD dg.start 0) dg.endI (ls.length - dg.endI) with
              | none => .ok (.ClErrorCodeNoError, out1)
              | some rpos =>
                match dates.get? (rpos - 1) with
                | none => .error .crash
                | some rd =>
                  .ok (.ClErrorCodeNoError,
                    { out1 with recoveryMonth := ((rpos - dg.endI : Nat) : ℤ), recoveryDate := rd })
        else .ok (.ClErrorCodeNoError, out)

theorem getD_of_get?_int (l : List ℤ) (n : Nat) (a : ℤ) (h : l.get? n = some a) :
    l.getD n 0 = a := by
  simp [List.getD_eq_getElem?_getD, ← List.get?_eq_getElem?, h]

theorem recoveryScan_none (ls : List ℚ) (peak : ℚ) :
    ∀ steps i, (∀ j, i ≤ j → j < i + steps → ls.getD j 0 < peak) →
      recoveryScan ls peak i steps = none := by
  intro steps
  induction steps with
  | zero => intro i _; rfl
  | succ n ih =>
    intro i h
    rw [recoveryScan]
    rw [if_neg (not_le.mpr (h i (le_refl i) (by omega)))]
    exact ih (i + 1) (fun j hj1 hj2 => h j (by omega) (by omega))

theorem recoveryScan_some (ls : List ℚ) (peak : ℚ) :
    ∀ steps i r, i ≤ r → r < i + steps → peak ≤ ls.getD r 0 →
      (∀ j, i ≤ j → j < r → ls.getD j 0 < peak) →
      recoveryScan ls peak i steps = some r := by
  intro steps
  induction steps with
  | zero => intro i r h1 h2; omega
  | succ n ih =>
    intro i r h1 h2 hr hbelow
    rw [recoveryScan]
    rcases Nat.eq_or_lt_of_le h1 with hir | hir
    · rw [← hir] at hr
      rw [if_pos hr, hir]
    · rw [if_neg (not_le.mpr (hbelow i (le_refl i) hir))]
      exact ih (i + 1) r hir (by omega) hr (fun j hj1 hj2 => hbelow j (by omega) hj2)

/-- Projection of a `max_draw_down` outcome to the error code and the two
recovery out-parameters. -/
def recOut (x : Except RunFail (Errors × MDDOut)) : Except RunFail (Errors × ℤ × ℤ) :=
  x.map (fun p => (p.1, p.2.recoveryMonth, p.2.recoveryDate))

/-- Claim C2: with a NaN after the first complete window
(`values = [1%, 2%, NaN]`, window size 1, sorted dates `[10, 20, 30]`),
`best_rolling_month` returns `NoError` with the partial numeric result of the
windows preceding the NaN - value `2` at date `20` - instead of leaving the
NaN sentinel in the value output and `0` in the date output as the claim (and
the function's own doc comment) require. -/
theorem c2_rolling_partial_result_after_nan :
    best_rolling_month [some 1, some 2, none] [10, 20, 30] 1 0 none =
      .ok (.ClErrorCodeNoError, 20, some 2) := by
  norm_num [best_rolling_month, best_worth_rolling_month, bwrLoop, windowProd, omul, ocmp,
    usizeOfI32, is_sorted_array, sortedChk, List.getD, List.get?, Except.map]

/-- Claim C5 counterexample: `max_draw_down` on the one-sample series `[-1%]`
with an empty dates array does not return `InvalidPara` - it reaches
`dates[dg.start]` without any length validation and panics (out-of-bounds
index), modelled as `.error .crash`. -/
theorem c5_length_mismatch_crash_counterexample :
    max_draw_down (fun q => q) (fun q => q) (fun d => d) 1 [some (-1)] [] ⟨none, 0, 0, 0, 0, 0⟩ =
      .error .crash := by
  norm_num [max_draw_down, logAccum, logAccumGo, get_max_draw_down, get_max_draw_down_body,
    adjustStart, firstNonzero, scanExtrema, DataGroup.new, List.get?]

/-- Claim C5 (amended): the date-taking operations do not validate the length
of `dates` against `values`; `max_draw_down` checks only for an empty values
array, and whenever it locates a non-degenerate drawdown while `dates` is
empty (the extreme length mismatch) the date lookup goes out of bounds and
panics instead of returning `InvalidParameter`. -/
theorem c5_no_dates_validation_crash (ln1p expPct : ℚ → ℚ) (pBegin : ℤ → ℤ)
    (fuel : Nat) (values : List (Option ℚ)) (out0 : MDDOut)
    (ls : List ℚ) (err : Errors) (dg : DataGroup)
    (hne : ¬values.length = 0)
    (hls : logAccum ln1p values = some ls)
    (hdg : get_max_draw_down ls fuel 0 (ls.length - 1) DataGroup.new = .ok (err, dg))
    (hlt : dg.start < dg.endI) (hdata : dg.data ≠ 0) :
    max_draw_down ln1p expPct pBegin fuel values [] out0 = .error .crash := by
  unfold max_draw_down
  rw [if_neg hne]
  simp only [hls, hdg]
  rw [if_pos ⟨hlt, hdata⟩]
  have hnil : ([] : List ℤ).get? dg.start = none := rfl
  simp only [hnil]

theorem c5_no_dates_validation_crash_witness :
    max_draw_down (fun q => q) (fun q => q) (fun d => d) 1 [some (-1)] [] ⟨none, 0, 0, 0, 0, 0⟩ =
      .error .crash :=
  c5_no_dates_validation_crash (fun q => q) (fun q => q) (fun d => d) 1 [some (-1)]
    ⟨none, 0, 0, 0, 0, 0⟩ [0, -1] .ClErrorCodeInvalidPara ⟨0, 1, 1⟩
    (by norm_num) (by norm_num [logAccum, logAccumGo])
    (by norm_num [get_max_draw_down, get_max_draw_down_body, adjustStart, firstNonzero,
      scanExtrema])
    (by norm_num) (by norm_num)

/-- Claim C8: after `max_draw_down` locates a non-degenerate drawdown interval
`dg`, it scans forward from the trough index `dg.endI` for the first sample of
the cumulative log series at or above the peak value
`log_accum_series[dg.start]`; when the first such sample is at index `r`, the
call succeeds with `recovery_month = r - dg.endI` and
`recovery_date = dates[r - 1]`, and when no such sample exists the call still
succeeds with `recovery_month` and `recovery_date` both zero. -/
theorem c8_recovery_spec (ln1p expPct : ℚ → ℚ) (pBegin : ℤ → ℤ)
    (fuel : Nat) (values : List (Option ℚ)) (dates : List ℤ) (out0 : MDDOut)
    (ls : List ℚ) (err : Errors) (dg : DataGroup)
    (hne : ¬values.length = 0)
    (hls : logAccum ln1p values = some ls)
    (hdg : get_max_draw_down ls fuel 0 (ls.length - 1) DataGroup.new = .ok (err, dg))
    (hlt : dg.start < dg.endI) (hdata : dg.data ≠ 0)
    (hd1 : dg.start < dates.length) (hd2 : dg.endI - 1 < dates.length) :
    ((∀ j, dg.endI ≤ j → j < ls.length → ls.getD j 0 < ls.getD dg.start 0) →
      recOut (max_draw_down ln1p expPct pBegin fuel values dates out0) =
        .ok (.ClErrorCodeNoError, 0, 0)) ∧
    (∀ r, dg.endI ≤ r → r < ls.length → ls.getD dg.start 0 ≤ ls.getD r 0 →
      (∀ j, dg.endI ≤ j → j < r → ls.getD j 0 < ls.getD dg.start 0) →
      r - 1 < dates.length →
      recOut (max_draw_down ln1p expPct pBegin fuel values dates out0) =
        .ok (.ClErrorCodeNoError, ((r - dg.endI : Nat) : ℤ), dates.getD (r - 1) 0)) := by
  obtain ⟨pd, hpd⟩ : ∃ pd, dates.get? dg.start = some pd := by
    rcases hx : dates.get? dg.start with _ | pd
    · exact absurd (List.get?_eq_none.mp hx) (by omega)
    · exact ⟨pd, rfl⟩
  obtain ⟨vd, hvd⟩ : ∃ vd, dates.get? (dg.endI - 1) = some vd := by
    rcases hx : dates.get? (dg.endI - 1) with _ | vd
    · exact absurd (List.get?_eq_none.mp hx) (by omega)
    · exact ⟨vd, rfl⟩
  constructor
  · intro hnone
    unfold max_draw_down
    rw [if_neg hne]
    simp only [hls, hdg]
    rw [if_pos ⟨hlt, hdata⟩]
    simp only [hpd, hvd]
    rw [recoveryScan_none ls (ls.getD dg.start 0) (ls.length - dg.endI) dg.endI
      (fun j hj1 hj2 => hnone j hj1 (by omega))]
    rfl
  · intro r hr1 hr2 hrge hbelow hrd
    obtain ⟨rd, hrdx⟩ : ∃ rd, dates.get? (r - 1) = some rd := by
      rcases hx : dates.get? (r - 1) with _ | rd
      · exact absurd (List.get?_eq_none.mp hx) (by omega)
      · exact ⟨rd, rfl⟩
    unfold max_draw_down
    rw [if_neg hne]
    simp only [hls, hdg]
    rw [if_pos ⟨hlt, hdata⟩]
    simp only [hpd, hvd]
    rw [recoveryScan_some ls (ls.getD dg.start 0) (ls.length - dg.endI) dg.endI r hr1
      (by omega) hrge (fun j hj1 hj2 => hbelow j hj1 hj2)]
    simp only [hrdx]
    rw [getD_of_get?_int dates (r - 1) rd hrdx]
    rfl

theorem c8_recovery_spec_witness :
    recOut (max_draw_down (fun q => q) (fun q => q) (fun d => d) 1 [some (-1), some 1]
        [10, 20] ⟨none, 0, 0, 0, 0, 0⟩) = .ok (.ClErrorCodeNoError, 1, 20) := by
  have h := (c8_recovery_spec (fun q => q) (fun q => q) (fun d => d) 1 [some (-1), some 1]
      [10, 20] ⟨none, 0, 0, 0, 0, 0⟩ [0, -1, 0] .ClErrorCodeInvalidPara ⟨0, 1, 1⟩
      (by norm_num) (by norm_num [logAccum, logAccumGo])
      (by norm_num [get_max_draw_down, get_max_draw_down_body, adjustStart, firstNonzero,
        scanExtrema])
      (by norm_num) (by norm_num) (by norm_num) (by norm_num)).2 2
      (by norm_num) (by norm_num) (by norm_num [List.getD])
      (by
        intro j h1 h2
        have h1x : 1 ≤ j := h1
        have hj : j = 1 := by omega
        subst hj
        norm_num [List.getD])
      (by norm_num)
  norm_num [List.getD] at h
  exact h

theorem getD_replicate_zero (m : Nat) : ∀ j, (List.replicate m (0 : ℚ)).getD j 0 = 0 := by
  induction m with
  | zero => intro j; rfl
  | succ n ih =>
    intro j
    cases j with
    | zero => simp [List.replicate_succ]
    | succ k => simp [List.replicate_succ, ih k]

theorem firstNonzero_replicate_zero (m : Nat) :
    ∀ steps i, firstNonzero (List.replicate m (0 : ℚ)) i steps = none := by
  intro steps
  induction steps with
  | zero => intro i; rfl
  | succ n ih =>
    intro i
    rw [firstNonzero, if_neg (by simp [getD_replicate_zero]), ih]

theorem scanExtrema_replicate_zero (m : Nat) :
    ∀ steps i ma mi, scanExtrema (List.replicate m (0 : ℚ)) i steps ma mi = (ma, mi) := by
  intro steps
  induction steps with
  | zero => intro i ma mi; rfl
  | succ n ih =>
    intro i ma mi
    rw [scanExtrema, if_neg (by simp [getD_replicate_zero]),
      if_neg (by simp [getD_replicate_zero])]
    exact ih (i + 1) ma mi

theorem logAccumGo_replicate_zero (ln1p : ℚ → ℚ) (hl : ln1p 0 = 0) :
    ∀ n acc, logAccumGo ln1p (List.replicate n (some (0 : ℚ))) acc =
      some (List.replicate n acc) := by
  intro n
  induction n with
  | zero => intro acc; rfl
  | succ k ih =>
    intro acc
    rw [List.replicate_succ]
    simp only [logAccumGo, hl, add_zero, ih acc]
    simp [List.replicate_succ]

theorem logAccum_replicate_zero (ln1p : ℚ → ℚ) (hl : ln1p 0 = 0) (n : Nat) :
    logAccum ln1p (List.replicate n (some (0 : ℚ))) =
      some (List.replicate (n + 1) (0 : ℚ)) := by
  unfold logAccum
  rw [logAccumGo_replicate_zero ln1p hl n]
  simp [List.replicate_succ]

theorem gmdd_flat (n fuel : Nat) :
    get_max_draw_down (List.replicate (n + 1) (0 : ℚ)) (fuel + 1) 0 n DataGroup.new =
      .ok (.ClErrorCodeInvalidPara, ⟨0, 0, 0⟩) := by
  rw [get_max_draw_down_succ]
  unfold get_max_draw_down_body
  rw [if_neg (by simp only [List.length_replicate]; omega)]
  have hadj : adjustStart (List.replicate (n + 1) (0 : ℚ)) 0 n = 0 := by
    unfold adjustStart
    rw [firstNonzero_replicate_zero]
  simp only [hadj, scanExtrema_replicate_zero]
  norm_num

/-- Claim C9 counterexample: for the flat one-sample series `[0%]` the public
`max_draw_down` succeeds but leaves its primary output as the NaN sentinel
(`mdd = none`), not as a zero magnitude - the zero-magnitude sentinel exists
only in the internal interval. -/
theorem c9_flat_public_nan_counterexample :
    max_draw_down (fun q => q) (fun q => q) (fun d => d) 1 [some 0] [7] ⟨none, 0, 0, 0, 0, 0⟩ =
      .ok (.ClErrorCodeNoError, ⟨none, 0, 0, 0, 0, 0⟩) := by
  norm_num [max_draw_down, logAccum, logAccumGo, get_max_draw_down, get_max_draw_down_body,
    adjustStart, firstNonzero, scanExtrema, DataGroup.new]

/-- Claim C9 (amended): for a flat (all-zero-return) series the internal
`get_max_draw_down` does return the literal zero-magnitude sentinel interval
`{0, 0, 0.0}` (not NaN); the public `max_draw_down`, however, then reports
the NaN sentinel in its primary output (it only overwrites the initial NaN
when the interval is non-degenerate), with all derived date/duration/recovery
fields zero. -/
theorem c9_flat_zero_interval_public_nan (ln1p expPct : ℚ → ℚ) (pBegin : ℤ → ℤ)
    (fuel n : Nat) (dates : List ℤ) (out0 : MDDOut)
    (hl : ln1p 0 = 0) (hn : 1 ≤ n) :
    get_max_draw_down (List.replicate (n + 1) (0 : ℚ)) (fuel + 1) 0 n DataGroup.new =
      .ok (.ClErrorCodeInvalidPara, ⟨0, 0, 0⟩) ∧
    max_draw_down ln1p expPct pBegin (fuel + 1) (List.replicate n (some 0)) dates out0 =
      .ok (.ClErrorCodeNoError, ⟨none, 0, 0, 0, 0, 0⟩) := by
  refine ⟨gmdd_flat n fuel, ?_⟩
  unfold max_draw_down
  rw [if_neg (by simp only [List.length_replicate]; omega)]
  simp only [logAccum_replicate_zero ln1p hl n]
  have hlen : (List.replicate (n + 1) (0 : ℚ)).length - 1 = n := by simp
  rw [hlen, gmdd_flat n fuel]
  norm_num

theorem c9_flat_zero_interval_public_nan_witness :
    get_max_draw_down (List.replicate 2 (0 : ℚ)) 1 0 1 DataGroup.new =
      .ok (.ClErrorCodeInvalidPara, ⟨0, 0, 0⟩) ∧
    max_draw_down (fun q => q) (fun q => q) (fun d => d) 1 (List.replicate 1 (some 0)) [7]
        ⟨none, 0, 0, 0, 0, 0⟩ =
      .ok (.ClErrorCodeNoError, ⟨none, 0, 0, 0, 0, 0⟩) :=
  c9_flat_zero_interval_public_nan (fun q => q) (fun q => q) (fun d => d) 0 1 [7]
    ⟨none, 0, 0, 0, 0, 0⟩ rfl (by norm_num)

/-- Sanity check against the V-shape fixture of spec §8: on the log series
`[0, -0.5, -1.0, -0.3, 0.8]` the drawdown search returns the interval
`{0, 2}` with magnitude `1.0`. -/
theorem vshape_fixture_check :
    get_max_draw_down ([0, -1/2, -1, -3/10, 4/5] : List ℚ) 1 0 4 DataGroup.new =
      .ok (.ClErrorCodeNoError, ⟨0, 2, 1⟩) := by
  norm_num [get_max_draw_down, get_max_draw_down_body, adjustStart, firstNonzero, scanExtrema,
    scanMaxIdx, scanMinIdx, incRunUp, backRunUp]

end MptLib
